import Mathlib

/-!
Verification development for the Git Operation Coordinator
(crates/project/src/git.rs): a shallow embedding of the job queue worker,
the repository-list reconciliation pass, the diff truncation, the
stage/unstage buffer-save sequencing, and the askpass correlation map,
together with theorems settling the specified properties.
-/

set_option linter.unusedVariables false

namespace GitCoordinator

/-- Repository-relative path (RepoPath in the source). -/
abbrev RepoPath := String

/-- Coalescing key for queued git jobs.  Mirrors the source exactly:
the only constructor is WriteIndex, carrying the repository-relative
path and nothing else (in particular no repository identity). -/
inductive GitJobKey where
  | WriteIndex (path : RepoPath)
deriving DecidableEq

/-- A queued job as seen by the worker: an optional coalescing key plus
a job identifier standing for the opaque closure and its one-shot
result channel.  The closure body is irrelevant to scheduling. -/
structure GitJobM where
  key : Option GitJobKey
  jobId : Nat
deriving DecidableEq

/-- The job built by Repository.set_index_text: it is submitted with
key Some(WriteIndex(path)).  The repository identity and the content
are captured by the closure but do not enter the key. -/
def set_index_text_job (repoId : Nat) (path : RepoPath) (content : Option String)
    (jobId : Nat) : GitJobM :=
  { key := some (GitJobKey.WriteIndex path), jobId := jobId }

/-- Observable events of the worker loop: a job is skipped (dropped
without running, its one-shot sender dropped so the caller sees a
disconnected channel), or it starts and later finishes running. -/
inductive WEvent where
  | skip (jobId : Nat)
  | start (jobId : Nat)
  | finish (jobId : Nat)
deriving DecidableEq

/-- The worker loop of GitStore.spawn_git_worker, for a buffer of jobs
that are all pending before the worker drains (no later submissions):
pop the front job; if it carries a key and any other pending job
carries an equal key, drop it without executing; otherwise run it to
completion before considering the next job. -/
def runWorker : List GitJobM → List WEvent
  | [] => []
  | j :: rest =>
    match j.key with
    | some k =>
      if rest.any (fun other => other.key = some k) then
        WEvent.skip j.jobId :: runWorker rest
      else
        WEvent.start j.jobId :: WEvent.finish j.jobId :: runWorker rest
    | none => WEvent.start j.jobId :: WEvent.finish j.jobId :: runWorker rest

/-- The jobIds that actually execute, in execution order. -/
def executedIds (tr : List WEvent) : List Nat :=
  tr.filterMap (fun e =>
    match e with
    | WEvent.start i => some i
    | _ => none)

/-- A trace is serial when every started job finishes immediately,
before any other job starts: no two jobs overlap. -/
def serialTrace : List WEvent → Bool
  | [] => true
  | WEvent.skip _ :: r => serialTrace r
  | WEvent.start i :: WEvent.finish j :: r => i == j && serialTrace r
  | _ => false

/-- Helper: if every job in pre ++ [last] carries the same key, the
worker skips every job of pre and executes only last. -/
theorem runWorker_same_key (k : GitJobKey) :
    ∀ (pre : List GitJobM) (last : GitJobM),
      (∀ j ∈ pre ++ [last], j.key = some k) →
      runWorker (pre ++ [last])
        = pre.map (fun j => WEvent.skip j.jobId)
          ++ [WEvent.start last.jobId, WEvent.finish last.jobId] := by
  intro pre
  induction pre with
  | nil =>
    intro last hk
    have hlast : last.key = some k := hk last (by simp)
    simp [runWorker, hlast]
  | cons j rest ih =>
    intro last hk
    have hj : j.key = some k := hk j (by simp)
    have hany : ((rest ++ [last]).any fun other => other.key = some k) = true := by
      refine List.any_eq_true.mpr ⟨last, by simp, ?_⟩
      exact decide_eq_true (hk last (by simp))
    have hrec := ih last (fun x hx => hk x (by simp_all))
    simp only [List.cons_append, runWorker, hj, List.append_eq]
    rw [if_pos hany, hrec, List.map_cons, List.cons_append]

/-- Helper: keyless jobs are never skipped and execute in submission
order: their ids form a sublist of the executed ids. -/
theorem keyless_sublist_executed (js : List GitJobM) :
    List.Sublist ((js.filter (fun j => j.key.isNone)).map GitJobM.jobId)
      (executedIds (runWorker js)) := by
  induction js with
  | nil => simp [runWorker, executedIds]
  | cons j rest ih =>
    cases hj : j.key with
    | none =>
      simp only [runWorker, hj, executedIds, List.filterMap_cons, List.filter_cons,
        Option.isNone_none, decide_True, List.map_cons]
      exact List.Sublist.cons₂ _ ih
    | some k =>
      by_cases hany : (rest.any fun other => other.key = some k) = true
      · simp only [runWorker, hj, hany, if_true, executedIds, List.filterMap_cons,
          List.filter_cons, Option.isNone_some]
        simpa [executedIds] using ih
      · simp only [runWorker, hj, hany, if_false, executedIds, List.filterMap_cons,
          List.filter_cons, Option.isNone_some]
        exact List.Sublist.cons _ (by simpa [executedIds] using ih)

/-- Helper: worker traces are serial: each executed job runs to
completion before any other job is considered. -/
theorem runWorker_serial (js : List GitJobM) :
    serialTrace (runWorker js) = true := by
  induction js with
  | nil => simp [runWorker, serialTrace]
  | cons j rest ih =>
    cases hj : j.key with
    | none => simp [runWorker, hj, serialTrace, ih]
    | some k =>
      by_cases hany : (rest.any fun other => other.key = some k) = true
      · simp [runWorker, hj, hany, serialTrace, ih]
      · simp [runWorker, hj, hany, serialTrace, ih]

/-- Helper: with no keyed job in the buffer, the trace is exactly the
submissions in order, each run to completion. -/
theorem runWorker_all_keyless (js : List GitJobM) (h : ∀ j ∈ js, j.key = none) :
    runWorker js
      = js.flatMap (fun j => [WEvent.start j.jobId, WEvent.finish j.jobId]) := by
  induction js with
  | nil => simp [runWorker]
  | cons j rest ih =>
    have hj : j.key = none := h j (by simp)
    have hrec := ih (fun x hx => h x (by simp_all))
    simp [runWorker, hj, hrec]

/-- Claim C1: for a sequence of set_index_text submissions that all
coalesce on the same WriteIndex(path) key and are all pending before
the worker drains, only the last-submitted job executes; every earlier
job is skipped (its one-shot result channel is dropped, so its caller
observes a disconnected result), and no start event for any id other
than the last ever occurs, so no earlier caller can observe a stale
success. -/
theorem claim_C1_set_index_text_last_write_wins
    (p : RepoPath) (subs : List (Nat × Option String × Nat))
    (lastRepo : Nat) (lastContent : Option String) (lastId : Nat) :
    runWorker (subs.map (fun s => set_index_text_job s.1 p s.2.1 s.2.2)
        ++ [set_index_text_job lastRepo p lastContent lastId])
      = subs.map (fun s => WEvent.skip s.2.2)
        ++ [WEvent.start lastId, WEvent.finish lastId]
    ∧ ∀ i, WEvent.start i ∈
        runWorker (subs.map (fun s => set_index_text_job s.1 p s.2.1 s.2.2)
          ++ [set_index_text_job lastRepo p lastContent lastId]) →
        i = lastId := by
  have htrace := runWorker_same_key (GitJobKey.WriteIndex p)
    (subs.map (fun s => set_index_text_job s.1 p s.2.1 s.2.2))
    (set_index_text_job lastRepo p lastContent lastId)
    (by
      intro j hj
      rcases List.mem_append.mp hj with hl | hr
      · rcases List.mem_map.mp hl with ⟨s, _, rfl⟩
        rfl
      · simp only [List.mem_singleton] at hr
        subst hr
        rfl)
  rw [List.map_map] at htrace
  constructor
  · exact htrace
  · intro i hi
    rw [htrace] at hi
    rcases List.mem_append.mp hi with hl | hr
    · rcases List.mem_map.mp hl with ⟨s, _, hs⟩
      exact absurd hs (by simp)
    · simp only [List.mem_cons, List.mem_singleton] at hr
      rcases hr with h1 | h2
      · injection h1
      · simp at h2

/-- Claim C2: jobs without a coalescing key execute in exactly their
submission order (their ids form a sublist of the executed ids even
when keyed jobs are interleaved, and with no keyed jobs the trace is
exactly the submissions in order), and the worker trace is serial, so
no two jobs of one coordinator execute concurrently. -/
theorem claim_C2_keyless_fifo_serial (js : List GitJobM) :
    List.Sublist ((js.filter (fun j => j.key.isNone)).map GitJobM.jobId)
      (executedIds (runWorker js))
    ∧ serialTrace (runWorker js) = true
    ∧ ((∀ j ∈ js, j.key = none) →
        runWorker js
          = js.flatMap (fun j => [WEvent.start j.jobId, WEvent.finish j.jobId])) :=
  ⟨keyless_sublist_executed js, runWorker_serial js, runWorker_all_keyless js⟩

/-- Witness for claim C2 at a concrete two-job keyless queue. -/
theorem claim_C2_keyless_fifo_serial_witness :
    runWorker [⟨none, 1⟩, ⟨none, 2⟩]
      = [WEvent.start 1, WEvent.finish 1, WEvent.start 2, WEvent.finish 2] :=
  (claim_C2_keyless_fifo_serial [⟨none, 1⟩, ⟨none, 2⟩]).2.2 (by decide)

/-- Claim C9: the coalescing key of set_index_text is built from the
repository-relative path alone; two submissions for the same path in
two different repositories (repo ids 0 and 1) of one coordinator get
equal keys, so the earlier job is skipped (result channel dropped)
even though the jobs address different repositories. -/
theorem claim_C9_key_ignores_repository :
    (0 : Nat) ≠ 1
    ∧ (set_index_text_job 0 "a.txt" (some "v1") 1).key
        = (set_index_text_job 1 "a.txt" (some "v2") 2).key
    ∧ runWorker [set_index_text_job 0 "a.txt" (some "v1") 1,
        set_index_text_job 1 "a.txt" (some "v2") 2]
      = [WEvent.skip 1, WEvent.start 2, WEvent.finish 2] := by
  refine ⟨by decide, rfl, ?_⟩
  rfl

/-! ## Repository list reconciliation (GitStore.on_worktree_store_event) -/

/-- Cached status/branch snapshot of a working directory
(worktree::RepositoryEntry): its work-directory entry id and its
status entries (path mapped to a status code). -/
structure RepositoryEntryM where
  workDirId : Nat
  statusEntries : List (RepoPath × Nat)
deriving DecidableEq

/-- A Repository handle as held by the GitStore.  handleId models the
gpui Entity identity (the object reference): two states with equal
handleId are the same entity.  isLocalBackend models the GitRepo
variant (Local vs Remote). -/
structure RepoState where
  handleId : Nat
  worktree_id : Nat
  repository_entry : RepositoryEntryM
  merge_message : Option String
  isLocalBackend : Bool
  commit_message_buffer : Option Nat
  dot_git_abs_path : String
  worktree_abs_path : String
  is_from_single_file_worktree : Bool
  latest_askpass_id : Nat
deriving DecidableEq

/-- Repository identity: (worktree_id, work_directory_id), as in
Repository.id in the source. -/
def RepoState.id (h : RepoState) : Nat × Nat :=
  (h.worktree_id, h.repository_entry.workDirId)

/-- Status entries exposed by Repository.status. -/
def RepoState.status (h : RepoState) : List (RepoPath × Nat) :=
  h.repository_entry.statusEntries

/-- One working directory reported by a worktree during a pass over
worktree snapshots: the owning worktree id, the fresh RepositoryEntry,
and, when the worktree is local and get_local_repo succeeds, the local
repo with its merge message (localRepo = some mm); localRepo = none
models a non-local worktree or a missing local repo. -/
structure ReportedRepo where
  worktreeId : Nat
  entry : RepositoryEntryM
  localRepo : Option (Option String)
  dotGitAbsPath : String
  worktreeAbsPath : String
  isSingleFile : Bool
deriving DecidableEq

/-- The GitStore state relevant to reconciliation.  hasProjectId is
false for a Local store and true for Ssh and Remote stores (whether
project_id() returns Some).  nextHandleId models the allocator of
fresh gpui entities. -/
structure GitStoreM where
  repositories : List RepoState
  active_index : Option Nat
  hasProjectId : Bool
  nextHandleId : Nat
deriving DecidableEq

/-- The git_data computation of on_worktree_store_event: a local repo
yields a Local backend with its merge message; otherwise, when the
store has a project id, a Remote backend with no merge message;
otherwise the entry is skipped.  Returns (isLocalBackend, mergeMessage). -/
def gitData (hasProjectId : Bool) (r : ReportedRepo) : Option (Bool × Option String) :=
  match r.localRepo with
  | some mm => some (true, mm)
  | none => if hasProjectId then some (false, none) else none

/-- Find the first element satisfying p together with its index,
mirroring iter().enumerate().find(..) over the repositories list. -/
def findWithIdx (p : RepoState → Bool) : List RepoState → Option (Nat × RepoState)
  | [] => none
  | h :: t =>
    if p h then some (0, h)
    else (findWithIdx p t).map (fun ix => (ix.1 + 1, ix.2))

/-- In-place update of an existing handle: the statuses and merge
message are updated but everything else is kept; the merge message is
only assigned when the newly computed backend is Local. -/
def updatedRepo (h : RepoState) (entry : RepositoryEntryM) (isLocal : Bool)
    (mm : Option String) : RepoState :=
  { h with
    repository_entry := entry,
    merge_message := if isLocal then mm else h.merge_message }

/-- A freshly constructed Repository for a working directory not yet
tracked: new entity id, askpass counter 0, no commit message buffer. -/
def freshRepo (handleId : Nat) (r : ReportedRepo) (isLocal : Bool)
    (mm : Option String) : RepoState :=
  { handleId := handleId
    worktree_id := r.worktreeId
    repository_entry := r.entry
    merge_message := mm
    isLocalBackend := isLocal
    commit_message_buffer := none
    dot_git_abs_path := r.dotGitAbsPath
    worktree_abs_path := r.worktreeAbsPath
    is_from_single_file_worktree := r.isSingleFile
    latest_askpass_id := 0 }

/-- Accumulator of the reconciliation fold: the new repositories list,
the new active index, and the fresh-entity counter. -/
structure ReconAcc where
  newRepos : List RepoState
  newActive : Option Nat
  nextHandle : Nat
deriving DecidableEq

/-- One step of the reconciliation loop body for one reported working
directory, with the old repositories list and old active index fixed
for the whole pass (the source reads self.repositories and
self.active_index, which are only replaced after the loop). -/
def reconStep (hasProjectId : Bool) (old : List RepoState) (oldActive : Option Nat)
    (acc : ReconAcc) (r : ReportedRepo) : ReconAcc :=
  match gitData hasProjectId r with
  | none => acc
  | some (isLocal, mm) =>
    match findWithIdx (fun h => h.id = (r.worktreeId, r.entry.workDirId)) old with
    | some (idx, h) =>
      { newRepos := acc.newRepos ++ [updatedRepo h r.entry isLocal mm]
        newActive :=
          if oldActive = some idx then some acc.newRepos.length else acc.newActive
        nextHandle := acc.nextHandle }
    | none =>
      { newRepos := acc.newRepos ++ [freshRepo acc.nextHandle r isLocal mm]
        newActive := acc.newActive
        nextHandle := acc.nextHandle + 1 }

/-- The reconciliation pass of GitStore.on_worktree_store_event: fold
over every reported working directory, then recompute the active
index (if no previously active repository matched and the new list is
non-empty, index 0), then swap in the new list and index. -/
def reconcile (s : GitStoreM) (reported : List ReportedRepo) : GitStoreM :=
  let acc := reported.foldl (reconStep s.hasProjectId s.repositories s.active_index)
    { newRepos := [], newActive := none, nextHandle := s.nextHandleId }
  let finalActive :=
    if acc.newActive = none ∧ acc.newRepos.length > 0 then some 0 else acc.newActive
  { s with
    repositories := acc.newRepos
    active_index := finalActive
    nextHandleId := acc.nextHandle }

/-- Repository.activate: find the position of this handle in the
owning store and make it the active index; no-op when the handle is
not in the list. -/
def activate (s : GitStoreM) (handleId : Nat) : GitStoreM :=
  match findWithIdx (fun h => h.handleId = handleId) s.repositories with
  | some (idx, _) => { s with active_index := some idx }
  | none => s

/-- GitStore.active_repository: the source indexes
self.repositories[index] directly; the model uses get? so that the
bounds obligation is explicit. -/
def active_repository (s : GitStoreM) : Option RepoState :=
  s.active_index.bind (fun i => s.repositories.get? i)

/-- The safety invariant: whenever the active index is Some(i), i is a
valid index into the repositories list. -/
def activeIndexValid (s : GitStoreM) : Prop :=
  ∀ i, s.active_index = some i → i < s.repositories.length

/-- Helper: findWithIdx returns an element of the list at the returned
index, satisfying the predicate. -/
theorem findWithIdx_spec (p : RepoState → Bool) :
    ∀ (l : List RepoState) (i : Nat) (h : RepoState),
      findWithIdx p l = some (i, h) → l.get? i = some h ∧ p h = true := by
  intro l
  induction l with
  | nil => intro i h hf; simp [findWithIdx] at hf
  | cons x t ih =>
    intro i h hf
    by_cases hp : p x
    · simp only [findWithIdx, hp, if_true] at hf
      obtain ⟨rfl, rfl⟩ : 0 = i ∧ x = h := by
        constructor <;> [exact congrArg Prod.fst (Option.some.inj hf);
          exact congrArg Prod.snd (Option.some.inj hf)]
      exact ⟨rfl, hp⟩
    · cases hft : findWithIdx p t with
      | none => simp [findWithIdx, hp, hft] at hf
      | some ixh =>
        obtain ⟨i', h'⟩ := ixh
        simp only [findWithIdx, hp, if_false, hft, Option.map_some'] at hf
        obtain ⟨rfl, rfl⟩ : i' + 1 = i ∧ h' = h := by
          constructor <;> [exact congrArg Prod.fst (Option.some.inj hf);
            exact congrArg Prod.snd (Option.some.inj hf)]
        obtain ⟨hget, hph⟩ := ih i' h' hft
        exact ⟨by simpa using hget, hph⟩

/-- Helper: an index found by findWithIdx is in bounds. -/
theorem findWithIdx_lt_length (p : RepoState → Bool) (l : List RepoState)
    (i : Nat) (h : RepoState) (hf : findWithIdx p l = some (i, h)) :
    i < l.length := by
  have hget := (findWithIdx_spec p l i h hf).1
  exact List.get?_eq_some.mp hget |>.choose

/-- Helper: the reconciliation fold preserves validity of the
accumulated active index. -/
theorem reconFold_active_valid (hp : Bool) (old : List RepoState) (oldA : Option Nat) :
    ∀ (reported : List ReportedRepo) (acc : ReconAcc),
      (∀ j, acc.newActive = some j → j < acc.newRepos.length) →
      ∀ j, (reported.foldl (reconStep hp old oldA) acc).newActive = some j →
        j < (reported.foldl (reconStep hp old oldA) acc).newRepos.length := by
  intro reported
  induction reported with
  | nil => intro acc hacc; simpa using hacc
  | cons r rest ih =>
    intro acc hacc
    rw [List.foldl_cons]
    apply ih
    intro j hj
    unfold reconStep at hj ⊢
    cases hgd : gitData hp r with
    | none =>
      simp only [hgd] at hj ⊢
      exact hacc j hj
    | some pr =>
      obtain ⟨isLocal, mm⟩ := pr
      cases hfind : findWithIdx (fun h => h.id = (r.worktreeId, r.entry.workDirId)) old with
      | none =>
        simp only [hgd, hfind] at hj ⊢
        have := hacc j hj
        simp only [List.length_append, List.length_cons, List.length_nil]
        omega
      | some ixh =>
        obtain ⟨idx, hfound⟩ := ixh
        simp only [hgd, hfind] at hj ⊢
        simp only [List.length_append, List.length_cons, List.length_nil]
        by_cases hact : oldA = some idx
        · rw [if_pos hact] at hj
          have := Option.some.inj hj
          omega
        · rw [if_neg hact] at hj
          have := hacc j hj
          omega

/-- Helper: if no reported working directory that maps to a backend
resolves (by findWithIdx over the old list) to the old active index,
the fold leaves the accumulated active index at none. -/
theorem reconFold_active_none (hp : Bool) (old : List RepoState) (oldA : Option Nat) :
    ∀ (reported : List ReportedRepo),
      (∀ r ∈ reported, ∀ res, gitData hp r = some res →
        ∀ idx h, findWithIdx (fun x => x.id = (r.worktreeId, r.entry.workDirId)) old
            = some (idx, h) →
          oldA ≠ some idx) →
      ∀ acc, acc.newActive = none →
        (reported.foldl (reconStep hp old oldA) acc).newActive = none := by
  intro reported
  induction reported with
  | nil => intro _ acc hacc; simpa using hacc
  | cons r rest ih =>
    intro hmiss acc hacc
    rw [List.foldl_cons]
    apply ih (fun x hx => hmiss x (by simp [hx]))
    unfold reconStep
    cases hgd : gitData hp r with
    | none => simpa using hacc
    | some pr =>
      obtain ⟨isLocal, mm⟩ := pr
      cases hfind : findWithIdx (fun h => h.id = (r.worktreeId, r.entry.workDirId)) old with
      | none => simpa using hacc
      | some ixh =>
        obtain ⟨idx, hfound⟩ := ixh
        have hne : oldA ≠ some idx :=
          hmiss r (by simp) (isLocal, mm) hgd idx hfound hfind
        simp [hne, hacc]

/-- Claim C3: after a reconciliation pass in which no reported working
directory carries the identity of the previously active repository
(in particular when the active repository is dropped), and the
resulting repository list is non-empty, the new active index is 0. -/
theorem claim_C3_active_falls_back_to_zero (s : GitStoreM)
    (reported : List ReportedRepo)
    (hdropped : ∀ i, s.active_index = some i →
      ∀ h, s.repositories.get? i = some h →
        ∀ r ∈ reported, (r.worktreeId, r.entry.workDirId) ≠ h.id)
    (hnonempty : (reconcile s reported).repositories ≠ []) :
    (reconcile s reported).active_index = some 0 := by
  have hnone : (reported.foldl
      (reconStep s.hasProjectId s.repositories s.active_index)
      { newRepos := [], newActive := none, nextHandle := s.nextHandleId }).newActive
        = none := by
    apply reconFold_active_none
    · intro r hr res hres idx h hfind hact
      obtain ⟨hget, hp⟩ := findWithIdx_spec _ _ _ _ hfind
      have hid : h.id = (r.worktreeId, r.entry.workDirId) := of_decide_eq_true hp
      exact hdropped idx hact h hget r hr hid.symm
    · rfl
  have hlen : 0 < (reported.foldl
      (reconStep s.hasProjectId s.repositories s.active_index)
      { newRepos := [], newActive := none, nextHandle := s.nextHandleId }).newRepos.length := by
    have h1 := List.length_pos.mpr hnonempty
    simpa [reconcile] using h1
  simp [reconcile, hnone, hlen]

/-- A sample repository handle with identity (1, 1), used by witnesses. -/
def exRepo : RepoState where
  handleId := 1
  worktree_id := 1
  repository_entry := { workDirId := 1, statusEntries := [] }
  merge_message := none
  isLocalBackend := true
  commit_message_buffer := none
  dot_git_abs_path := "a"
  worktree_abs_path := "b"
  is_from_single_file_worktree := false
  latest_askpass_id := 0

/-- A sample local store tracking exRepo, with exRepo active. -/
def exStore : GitStoreM where
  repositories := [exRepo]
  active_index := some 0
  hasProjectId := false
  nextHandleId := 2

/-- A sample reported local working directory with identity (1, 7),
distinct from exRepo. -/
def exReportedOther : ReportedRepo where
  worktreeId := 1
  entry := { workDirId := 7, statusEntries := [] }
  localRepo := some none
  dotGitAbsPath := "c"
  worktreeAbsPath := "d"
  isSingleFile := false

/-- A sample reported local working directory with the identity (1, 1)
of exRepo and a fresh status snapshot. -/
def exReportedSame : ReportedRepo where
  worktreeId := 1
  entry := { workDirId := 1, statusEntries := [("a.txt", 3)] }
  localRepo := some (some "merge in progress")
  dotGitAbsPath := "c"
  worktreeAbsPath := "d"
  isSingleFile := false

/-- Witness for claim C3: a store whose single repository is active,
reconciled against a pass reporting a different working directory;
the resulting single-element list has active index 0. -/
theorem claim_C3_active_falls_back_to_zero_witness :
    (reconcile exStore [exReportedOther]).active_index = some 0 := by
  apply claim_C3_active_falls_back_to_zero
  · intro i hi h hh r hr
    simp only [exStore, Option.some.injEq] at hi
    subst hi
    simp only [exStore, List.get?] at hh
    cases hh
    simp only [List.mem_singleton] at hr
    subst hr
    decide
  · decide

/-- Claim C10: every state-modifying operation of the coordinator
(reconciliation on a worktree event, and activate on a repository
handle) preserves the invariant that an active index of Some(i) is a
valid index into the repositories list, so the direct indexing done by
active_repository never goes out of bounds. -/
theorem claim_C10_active_index_always_valid (s : GitStoreM)
    (reported : List ReportedRepo) (handleId : Nat)
    (hs : activeIndexValid s) :
    activeIndexValid (reconcile s reported)
    ∧ activeIndexValid (activate s handleId)
    ∧ ∀ i, s.active_index = some i → (active_repository s).isSome = true := by
  refine ⟨?_, ?_, ?_⟩
  · have hfold := reconFold_active_valid s.hasProjectId s.repositories s.active_index
      reported { newRepos := [], newActive := none, nextHandle := s.nextHandleId }
      (by intro j hj; simp at hj)
    intro j hj
    simp only [reconcile] at hj ⊢
    split at hj
    · rename_i hcond
      obtain rfl : 0 = j := Option.some.inj hj
      exact hcond.2
    · exact hfold j hj
  · intro j hj
    unfold activate at hj ⊢
    cases hfind : findWithIdx (fun h => h.handleId = handleId) s.repositories with
    | none =>
      simp only [hfind] at hj ⊢
      exact hs j hj
    | some ixh =>
      obtain ⟨idx, h⟩ := ixh
      simp only [hfind] at hj ⊢
      obtain rfl : idx = j := Option.some.inj hj
      exact findWithIdx_lt_length _ _ _ _ hfind
  · intro i hi
    have hlt := hs i hi
    rw [active_repository, hi, Option.some_bind, List.get?_eq_get hlt]
    rfl

/-- Witness for claim C10 at the sample store. -/
theorem claim_C10_active_index_always_valid_witness :
    activeIndexValid (reconcile exStore [exReportedOther])
    ∧ activeIndexValid (activate exStore 1)
    ∧ ∀ i, exStore.active_index = some i →
        (active_repository exStore).isSome = true :=
  claim_C10_active_index_always_valid exStore [exReportedOther] 1 (by
    intro i hi
    simp only [exStore, Option.some.injEq] at hi
    subst hi
    simp [exStore])

/-- Helper: a remote backend computed by git_data always carries no
merge message. -/
theorem gitData_remote_merge_none (hp : Bool) (r : ReportedRepo) (mm : Option String)
    (h : gitData hp r = some (false, mm)) : mm = none := by
  unfold gitData at h
  cases hlr : r.localRepo with
  | some m => rw [hlr] at h; simp at h
  | none =>
    rw [hlr] at h
    cases hhp : hp
    · rw [hhp] at h; simp at h
    · rw [hhp] at h
      simp only [if_true] at h
      have := Option.some.inj h
      exact (congrArg Prod.snd this).symm

/-- Helper: the reconciliation fold never removes elements already
accumulated. -/
theorem reconFold_mem_mono (hp : Bool) (old : List RepoState) (oldA : Option Nat) :
    ∀ (reported : List ReportedRepo) (acc : ReconAcc) (x : RepoState),
      x ∈ acc.newRepos → x ∈ (reported.foldl (reconStep hp old oldA) acc).newRepos := by
  intro reported
  induction reported with
  | nil => intro acc x hx; simpa using hx
  | cons r rest ih =>
    intro acc x hx
    rw [List.foldl_cons]
    apply ih
    unfold reconStep
    cases hgd : gitData hp r with
    | none => simpa using hx
    | some pr =>
      obtain ⟨isLocal, mm⟩ := pr
      cases hfind : findWithIdx (fun h => h.id = (r.worktreeId, r.entry.workDirId)) old with
      | none =>
        simp only [hfind]
        exact List.mem_append_left _ hx
      | some ixh =>
        obtain ⟨idx, h⟩ := ixh
        simp only [hfind]
        exact List.mem_append_left _ hx

/-- Helper: a reported working directory that resolves to an existing
handle contributes that handle, updated in place, to the new list. -/
theorem reconFold_mem_updated (hp : Bool) (old : List RepoState) (oldA : Option Nat) :
    ∀ (reported : List ReportedRepo) (acc : ReconAcc) (r : ReportedRepo)
      (isLocal : Bool) (mm : Option String) (idx : Nat) (h : RepoState),
      r ∈ reported →
      gitData hp r = some (isLocal, mm) →
      findWithIdx (fun x => x.id = (r.worktreeId, r.entry.workDirId)) old
        = some (idx, h) →
      updatedRepo h r.entry isLocal mm
        ∈ (reported.foldl (reconStep hp old oldA) acc).newRepos := by
  intro reported
  induction reported with
  | nil => intro _ _ _ _ _ _ hr; simp at hr
  | cons q rest ih =>
    intro acc r isLocal mm idx h hr hgd hfind
    rw [List.foldl_cons]
    rcases List.mem_cons.mp hr with heq | hr'
    · subst heq
      apply reconFold_mem_mono
      unfold reconStep
      simp only [hgd, hfind]
      exact List.mem_append_right _ (by simp)
    · exact ih _ r isLocal mm idx h hr' hgd hfind

/-- Claim C4: a reconciliation pass carries forward the same handle
(equal entity id) for every reported working directory whose identity
already exists: its status snapshot and merge message are updated in
place and afterwards status() yields the new entries, while the commit
message buffer, backend, paths and askpass counter are unchanged.  The
hypothesis hreach reflects a code invariant: a Remote-backed handle
always has merge_message None (it is created with None and the
reconciliation never assigns it), and git_data yields None for a
Remote backend, so on reachable states the in-place assignment the
source performs only for Local backends coincides with updating the
merge message unconditionally. -/
theorem claim_C4_existing_repo_updated_in_place (s : GitStoreM)
    (reported : List ReportedRepo) (r : ReportedRepo) (hr : r ∈ reported)
    (isLocal : Bool) (mm : Option String)
    (hgd : gitData s.hasProjectId r = some (isLocal, mm))
    (idx : Nat) (h : RepoState)
    (hfind : findWithIdx (fun x => x.id = (r.worktreeId, r.entry.workDirId))
        s.repositories = some (idx, h))
    (hreach : isLocal = false → h.merge_message = none) :
    ∃ h', h' ∈ (reconcile s reported).repositories
      ∧ h'.handleId = h.handleId
      ∧ h'.repository_entry = r.entry
      ∧ h'.status = r.entry.statusEntries
      ∧ h'.merge_message = mm
      ∧ h'.worktree_id = h.worktree_id
      ∧ h'.isLocalBackend = h.isLocalBackend
      ∧ h'.commit_message_buffer = h.commit_message_buffer
      ∧ h'.dot_git_abs_path = h.dot_git_abs_path
      ∧ h'.worktree_abs_path = h.worktree_abs_path
      ∧ h'.is_from_single_file_worktree = h.is_from_single_file_worktree
      ∧ h'.latest_askpass_id = h.latest_askpass_id := by
  have hmem : updatedRepo h r.entry isLocal mm ∈ (reconcile s reported).repositories := by
    have := reconFold_mem_updated s.hasProjectId s.repositories s.active_index reported
      { newRepos := [], newActive := none, nextHandle := s.nextHandleId }
      r isLocal mm idx h hr hgd hfind
    simpa [reconcile] using this
  have hmm : (updatedRepo h r.entry isLocal mm).merge_message = mm := by
    cases isLocal with
    | true => simp [updatedRepo]
    | false =>
      simp only [updatedRepo, Bool.false_eq_true, if_false]
      rw [hreach rfl, gitData_remote_merge_none s.hasProjectId r mm hgd]
  exact ⟨updatedRepo h r.entry isLocal mm, hmem, rfl, rfl, rfl, hmm,
    rfl, rfl, rfl, rfl, rfl, rfl, rfl⟩

/-- Witness for claim C4: the sample store reconciled against a report
of the same working directory with a fresh status snapshot. -/
theorem claim_C4_existing_repo_updated_in_place_witness :
    ∃ h', h' ∈ (reconcile exStore [exReportedSame]).repositories
      ∧ h'.handleId = exRepo.handleId
      ∧ h'.repository_entry = exReportedSame.entry
      ∧ h'.status = exReportedSame.entry.statusEntries
      ∧ h'.merge_message = some "merge in progress"
      ∧ h'.worktree_id = exRepo.worktree_id
      ∧ h'.isLocalBackend = exRepo.isLocalBackend
      ∧ h'.commit_message_buffer = exRepo.commit_message_buffer
      ∧ h'.dot_git_abs_path = exRepo.dot_git_abs_path
      ∧ h'.worktree_abs_path = exRepo.worktree_abs_path
      ∧ h'.is_from_single_file_worktree = exRepo.is_from_single_file_worktree
      ∧ h'.latest_askpass_id = exRepo.latest_askpass_id :=
  claim_C4_existing_repo_updated_in_place exStore [exReportedSame] exReportedSame
    (by simp) true (some "merge in progress") (by decide) 0 exRepo (by decide)
    (fun hc => nomatch hc)

/-! ## Diff truncation (GitStore.handle_git_diff, Repository.diff) -/

/-- The ONE_MB constant of handle_git_diff. -/
def ONE_MB : Nat := 1000000

/-- The UTF-8 byte length of a string modelled as a character list;
this is what String::len returns in the source language. -/
def utf8Len (s : List Char) : Nat := (s.map Char.utf8Size).sum

/-- The truncation performed by handle_git_diff after awaiting the
diff: if the byte length exceeds ONE_MB, keep only the first ONE_MB
characters; otherwise return the diff as is. -/
def handle_git_diff_cap (diff : List Char) : List Char :=
  if utf8Len diff > ONE_MB then diff.take ONE_MB else diff

/-- The Local arm of Repository.diff: the backend output is returned
to the caller unmodified (no truncation happens in Repository.diff). -/
def repositoryDiffLocal (backendOutput : List Char) : List Char := backendOutput

/-- The Remote arm of Repository.diff: the peer runs handle_git_diff,
which runs its local diff and applies the cap, and the response diff
is returned unmodified. -/
def repositoryDiffRemote (peerBackendOutput : List Char) : List Char :=
  handle_git_diff_cap (repositoryDiffLocal peerBackendOutput)

/-- Helper: every character occupies at least one UTF-8 byte. -/
theorem one_le_utf8Size (c : Char) : 1 ≤ c.utf8Size :=
  Char.utf8Size_pos c

/-- Helper: the byte length dominates the character count. -/
theorem length_le_utf8Len (s : List Char) : s.length ≤ utf8Len s := by
  induction s with
  | nil => simp [utf8Len]
  | cons c t ih =>
    have := one_le_utf8Size c
    simp only [utf8Len, List.map_cons, List.sum_cons, List.length_cons] at ih ⊢
    omega

/-- Counterexample to claim C5 as stated: a diff operation against a
Local backend returns the underlying diff unmodified even when it
exceeds 1,000,000 characters, because the truncation lives only in the
GitDiff RPC handler. -/
theorem claim_C5_diff_truncation_counterexample :
    ONE_MB < (List.replicate (ONE_MB + 1) 'a').length
    ∧ repositoryDiffLocal (List.replicate (ONE_MB + 1) 'a')
        = List.replicate (ONE_MB + 1) 'a'
    ∧ (repositoryDiffLocal (List.replicate (ONE_MB + 1) 'a')).length ≠ ONE_MB := by
  refine ⟨by simp, rfl, by simp [repositoryDiffLocal]⟩

/-- Claim C5, amended: the GitDiff RPC handler (and hence the Remote
arm of Repository.diff, whose response was capped by the peer) returns
the diff truncated to exactly 1,000,000 characters when it exceeds
that many characters and unmodified otherwise, while the Local arm of
Repository.diff returns the underlying diff unmodified regardless of
size.  Although the source guards the truncation on the byte length,
this is extensionally the character-count condition: more than ONE_MB
characters forces more than ONE_MB bytes, and with at most ONE_MB
characters the take is the identity. -/
theorem claim_C5_diff_truncation_amended (s : List Char) :
    handle_git_diff_cap s = (if ONE_MB < s.length then s.take ONE_MB else s)
    ∧ (ONE_MB < s.length → (handle_git_diff_cap s).length = ONE_MB)
    ∧ repositoryDiffRemote s = handle_git_diff_cap s
    ∧ repositoryDiffLocal s = s := by
  have hmain : handle_git_diff_cap s = (if ONE_MB < s.length then s.take ONE_MB else s) := by
    by_cases hc : ONE_MB < s.length
    · have hb : ONE_MB < utf8Len s := lt_of_lt_of_le hc (length_le_utf8Len s)
      rw [handle_git_diff_cap, if_pos hb, if_pos hc]
    · rw [if_neg hc]
      by_cases hb : ONE_MB < utf8Len s
      · rw [handle_git_diff_cap, if_pos hb]
        exact List.take_of_length_le (by omega)
      · rw [handle_git_diff_cap, if_neg hb]
  refine ⟨hmain, ?_, rfl, rfl⟩
  intro hc
  rw [hmain, if_pos hc, List.length_take]
  omega

/-- Witness for the amended claim C5 at a concrete over-long diff. -/
theorem claim_C5_diff_truncation_amended_witness :
    ONE_MB < (List.replicate (ONE_MB + 1) 'b').length
    ∧ (handle_git_diff_cap (List.replicate (ONE_MB + 1) 'b')).length = ONE_MB :=
  ⟨by simp, (claim_C5_diff_truncation_amended (List.replicate (ONE_MB + 1) 'b')).2.1
    (by simp)⟩

/-! ## Buffer saves before staging (Repository.stage_entries and
Repository.unstage_entries) -/

/-- The disk state of a buffer file: whether the file currently
exists on disk (file.disk_state().exists()). -/
structure FileM where
  diskExists : Bool
deriving DecidableEq

/-- An open buffer: its id, whether it has unsaved edits, and its
optional backing file. -/
structure BufferM where
  bufId : Nat
  dirty : Bool
  file : Option FileM
deriving DecidableEq

/-- The observable action sequence of stage_entries/unstage_entries:
saving a buffer, then submitting the stage or unstage job to the git
worker. -/
inductive StageEvent where
  | save (b : BufferM)
  | submitStage (paths : List RepoPath)
  | submitUnstage (paths : List RepoPath)
deriving DecidableEq

/-- The buffers collected into save_futures by stage_entries and
unstage_entries: for each path, unrelativize it to a project path
(skipping paths outside the work directory), look it up in the buffer
store, and keep the buffer only when its file reports an existing
disk state. -/
def saveTargets (worktreeId : Nat) (unrel : RepoPath → Option String)
    (getByPath : Nat × String → Option BufferM) (entries : List RepoPath) :
    List BufferM :=
  entries.filterMap (fun path =>
    match unrel path with
    | none => none
    | some p =>
      match getByPath (worktreeId, p) with
      | none => none
      | some buffer =>
        if (buffer.file.map (fun f => f.diskExists)).getD false then some buffer
        else none)

/-- The action trace of stage_entries: an empty path list
short-circuits; otherwise every collected save completes (in order)
and only then is the stage job submitted. -/
def stage_entries_trace (worktreeId : Nat) (unrel : RepoPath → Option String)
    (getByPath : Nat × String → Option BufferM) (entries : List RepoPath) :
    List StageEvent :=
  if entries.isEmpty then []
  else (saveTargets worktreeId unrel getByPath entries).map StageEvent.save
    ++ [StageEvent.submitStage entries]

/-- The action trace of unstage_entries, identical to stage_entries
except for the submitted job. -/
def unstage_entries_trace (worktreeId : Nat) (unrel : RepoPath → Option String)
    (getByPath : Nat × String → Option BufferM) (entries : List RepoPath) :
    List StageEvent :=
  if entries.isEmpty then []
  else (saveTargets worktreeId unrel getByPath entries).map StageEvent.save
    ++ [StageEvent.submitUnstage entries]

/-- A buffer with unsaved edits whose backing file was deleted from
disk. -/
def exDirtyDeletedBuffer : BufferM where
  bufId := 1
  dirty := true
  file := some { diskExists := false }

/-- A buffer with unsaved edits whose backing file exists on disk. -/
def exDirtyBuffer : BufferM where
  bufId := 2
  dirty := true
  file := some { diskExists := true }

/-- Sample unrelativize of the repository: prepends the work
directory. -/
def exUnrel : RepoPath → Option String := fun p => some ("w/" ++ p)

/-- A buffer store holding exDirtyDeletedBuffer at a.txt. -/
def exGetByPathDeleted : Nat × String → Option BufferM :=
  fun p => if p = (1, "w/a.txt") then some exDirtyDeletedBuffer else none

/-- A buffer store holding exDirtyBuffer at a.txt. -/
def exGetByPathExisting : Nat × String → Option BufferM :=
  fun p => if p = (1, "w/a.txt") then some exDirtyBuffer else none

/-- Counterexample to claim C6 as stated: staging a.txt while its open
buffer has unsaved edits but its file no longer exists on disk issues
no save at all — the stage job is submitted without saving the dirty
buffer, because the source only saves buffers whose disk state exists. -/
theorem claim_C6_saves_before_stage_counterexample :
    exGetByPathDeleted (1, "w/a.txt") = some exDirtyDeletedBuffer
    ∧ exDirtyDeletedBuffer.dirty = true
    ∧ stage_entries_trace 1 exUnrel exGetByPathDeleted ["a.txt"]
        = [StageEvent.submitStage ["a.txt"]]
    ∧ StageEvent.save exDirtyDeletedBuffer
        ∉ stage_entries_trace 1 exUnrel exGetByPathDeleted ["a.txt"] := by
  decide

/-- Claim C6, amended: for a non-empty path list, every open buffer
among the given paths that unrelativizes to a project path and whose
file currently exists on disk — in particular every such buffer with
unsaved edits — is collected for saving, and the trace of
stage_entries (and unstage_entries) is exactly all collected saves,
in order, followed by the submission of the stage (or unstage) job,
so all saves complete before the job is submitted. -/
theorem claim_C6_saves_before_stage_amended (worktreeId : Nat)
    (unrel : RepoPath → Option String)
    (getByPath : Nat × String → Option BufferM) (entries : List RepoPath)
    (hne : entries ≠ [])
    (p : RepoPath) (hp : p ∈ entries) (pp : String) (hunrel : unrel p = some pp)
    (b : BufferM) (hb : getByPath (worktreeId, pp) = some b)
    (hdirty : b.dirty = true)
    (f : FileM) (hf : b.file = some f) (hex : f.diskExists = true) :
    b ∈ saveTargets worktreeId unrel getByPath entries
    ∧ stage_entries_trace worktreeId unrel getByPath entries
        = (saveTargets worktreeId unrel getByPath entries).map StageEvent.save
          ++ [StageEvent.submitStage entries]
    ∧ unstage_entries_trace worktreeId unrel getByPath entries
        = (saveTargets worktreeId unrel getByPath entries).map StageEvent.save
          ++ [StageEvent.submitUnstage entries] := by
  have hemp : entries.isEmpty = false := by
    cases entries with
    | nil => exact absurd rfl hne
    | cons x t => rfl
  refine ⟨?_, ?_, ?_⟩
  · apply List.mem_filterMap.mpr
    refine ⟨p, hp, ?_⟩
    simp [hunrel, hb, hf, hex]
  · rw [stage_entries_trace, hemp]
    rfl
  · rw [unstage_entries_trace, hemp]
    rfl

/-- Witness for the amended claim C6: staging a.txt whose open dirty
buffer exists on disk saves it before submitting the stage job. -/
theorem claim_C6_saves_before_stage_amended_witness :
    exDirtyBuffer ∈ saveTargets 1 exUnrel exGetByPathExisting ["a.txt"]
    ∧ stage_entries_trace 1 exUnrel exGetByPathExisting ["a.txt"]
        = (saveTargets 1 exUnrel exGetByPathExisting ["a.txt"]).map StageEvent.save
          ++ [StageEvent.submitStage ["a.txt"]]
    ∧ unstage_entries_trace 1 exUnrel exGetByPathExisting ["a.txt"]
        = (saveTargets 1 exUnrel exGetByPathExisting ["a.txt"]).map StageEvent.save
          ++ [StageEvent.submitUnstage ["a.txt"]] :=
  claim_C6_saves_before_stage_amended 1 exUnrel exGetByPathExisting ["a.txt"]
    (by decide) "a.txt" (by decide) "w/a.txt" (by decide) exDirtyBuffer (by decide)
    (by decide) { diskExists := true } (by decide) (by decide)

/-! ## Askpass correlation map (Repository.fetch/push/pull remote
arms, GitStore.handle_askpass, GitStore.repository_for_request) -/

/-- The askpass_delegates map: askpass id mapped to a delegate,
modelled as an association list with unique keys (delegates are
opaque, modelled as tokens). -/
abbrev DelegateMap := List (Nat × Nat)

/-- Removal from the delegate map (HashMap::remove). -/
def mapErase (k : Nat) (m : DelegateMap) : DelegateMap :=
  m.filter (fun e => e.1 ≠ k)

/-- Insertion into the delegate map (HashMap::insert replaces any
entry with the same key). -/
def mapInsert (k v : Nat) (m : DelegateMap) : DelegateMap :=
  (k, v) :: mapErase k m

/-- Lookup in the delegate map. -/
def mapLookup (k : Nat) (m : DelegateMap) : Option Nat :=
  (m.find? (fun e => e.1 = k)).map (fun e => e.2)

/-- Key membership in the delegate map. -/
def mapContains (k : Nat) (m : DelegateMap) : Bool :=
  (mapLookup k m).isSome

/-- Observable events of a remote fetch/push/pull job touching the
askpass map. -/
inductive AskpassEvent where
  | inserted (id : Nat)
  | requestSent
  | removed (id : Nat)
deriving DecidableEq

/-- The Remote arm shared by Repository.fetch, Repository.push and
Repository.pull: insert the delegate under the fresh askpass id,
send the request (requestOk says whether the round trip succeeds or
the job takes the early-error exit), and remove the id in a deferred
cleanup that runs on every exit path.  Returns the final map, the
event trace and the outcome. -/
def remoteAuthJob (m : DelegateMap) (askpassId delegate : Nat) (requestOk : Bool) :
    DelegateMap × List AskpassEvent × Bool :=
  let m1 := mapInsert askpassId delegate m
  let m2 := mapErase askpassId m1
  (m2, [AskpassEvent.inserted askpassId, AskpassEvent.requestSent,
    AskpassEvent.removed askpassId], requestOk)

/-- Helper: erasing a key not present leaves the map unchanged. -/
theorem mapErase_of_not_contains (k : Nat) (m : DelegateMap)
    (h : mapContains k m = false) : mapErase k m = m := by
  apply List.filter_eq_self.mpr
  intro e he
  simp only [mapContains, mapLookup, Option.isSome_map'] at h
  rcases hfind : m.find? (fun e => e.1 = k) with _ | v
  · have := List.find?_eq_none.mp hfind e he
    simpa using this
  · rw [hfind] at h
    simp at h

/-- Helper: after erasing a key it is no longer contained. -/
theorem mapContains_erase (k : Nat) (m : DelegateMap) :
    mapContains k (mapErase k m) = false := by
  simp only [mapContains, mapLookup, Option.isSome_map']
  rcases hfind : (mapErase k m).find? (fun e => e.1 = k) with _ | v
  · rw [hfind]
    rfl
  · have hmem := List.mem_of_find?_eq_some hfind
    have hpred := List.find?_some hfind
    have hk : v.1 = k := of_decide_eq_true hpred
    have := List.of_mem_filter hmem
    simp [hk] at this

/-- Claim C7: a remote fetch/push/pull inserts the askpass id before
the request is sent and removes it exactly once by the time the job
finishes, on both the success and the failure exit path; the id is
absent from the map afterwards and the map is restored to its prior
contents. -/
theorem claim_C7_askpass_id_removed_once (m : DelegateMap)
    (askpassId delegate : Nat) (requestOk : Bool)
    (hfresh : mapContains askpassId m = false) :
    (remoteAuthJob m askpassId delegate requestOk).2.1
      = [AskpassEvent.inserted askpassId, AskpassEvent.requestSent,
          AskpassEvent.removed askpassId]
    ∧ ((remoteAuthJob m askpassId delegate requestOk).2.1.count
        (AskpassEvent.removed askpassId)) = 1
    ∧ mapContains askpassId (remoteAuthJob m askpassId delegate requestOk).1 = false
    ∧ (remoteAuthJob m askpassId delegate requestOk).1 = m
    ∧ (remoteAuthJob m askpassId delegate requestOk).2.2 = requestOk := by
  refine ⟨rfl, ?_, ?_, ?_, rfl⟩
  · simp [remoteAuthJob, List.count_cons, List.count_nil]
  · exact mapContains_erase askpassId (mapInsert askpassId delegate m)
  · have h1 : mapErase askpassId m = m := mapErase_of_not_contains askpassId m hfresh
    show mapErase askpassId (mapInsert askpassId delegate m) = m
    rw [mapInsert, h1, mapErase, List.filter_cons, if_neg (by simp)]
    exact h1

/-- Witness for claim C7: a failing fetch (requestOk = false) with a
fresh id 3 over a map holding an unrelated id 5; the id 3 is inserted,
removed exactly once, and absent afterwards. -/
theorem claim_C7_askpass_id_removed_once_witness :
    (remoteAuthJob [(5, 9)] 3 7 false).2.1
      = [AskpassEvent.inserted 3, AskpassEvent.requestSent, AskpassEvent.removed 3]
    ∧ ((remoteAuthJob [(5, 9)] 3 7 false).2.1.count (AskpassEvent.removed 3)) = 1
    ∧ mapContains 3 (remoteAuthJob [(5, 9)] 3 7 false).1 = false
    ∧ (remoteAuthJob [(5, 9)] 3 7 false).1 = [(5, 9)]
    ∧ (remoteAuthJob [(5, 9)] 3 7 false).2.2 = false :=
  claim_C7_askpass_id_removed_once [(5, 9)] 3 7 false (by decide)

/-- GitStore.handle_askpass: resolve the repository, take the delegate
registered under the incoming askpass id out of the correlation map,
ask it for the password, and put it back; when no delegate is
registered for the id, this is reported as a defect (debug_panic in
the source) and the handler returns the error rather than silently
ignoring the request.  The successful result carries the map after
the round trip and the delegate token together with the prompt it was
asked. -/
def handle_askpass (m : DelegateMap) (askpassId : Nat) (prompt : String) :
    Except String (DelegateMap × Nat × String) :=
  match mapLookup askpassId m with
  | none => Except.error "no askpass found"
  | some d => Except.ok (mapInsert askpassId d (mapErase askpassId m), d, prompt)

/-- GitStore.repository_for_request: resolve an inbound request to a
tracked repository by (worktree_id, work_directory_id); fail with
"missing repository handle" when no tracked repository matches. -/
def repository_for_request (s : GitStoreM) (worktreeId workDirId : Nat) :
    Except String RepoState :=
  match s.repositories.find? (fun h => h.worktree_id = worktreeId
      ∧ h.repository_entry.workDirId = workDirId) with
  | some h => Except.ok h
  | none => Except.error "missing repository handle"

/-- Claim C8: an incoming AskPassRequest whose askpass id has no
registered delegate makes the handler return an error (never silently
ignored), and an inbound operation naming an untracked repository
identity fails with the error "missing repository handle". -/
theorem claim_C8_unknown_id_and_repo_error (m : DelegateMap) (askpassId : Nat)
    (prompt : String) (hmiss : mapLookup askpassId m = none)
    (s : GitStoreM) (worktreeId workDirId : Nat)
    (hnotrack : s.repositories.find? (fun h => h.worktree_id = worktreeId
        ∧ h.repository_entry.workDirId = workDirId) = none) :
    handle_askpass m askpassId prompt = Except.error "no askpass found"
    ∧ repository_for_request s worktreeId workDirId
        = Except.error "missing repository handle" := by
  constructor
  · rw [handle_askpass, hmiss]
  · rw [repository_for_request, hnotrack]

/-- Witness for claim C8: an empty delegate map and the sample store,
queried for an identity it does not track. -/
theorem claim_C8_unknown_id_and_repo_error_witness :
    handle_askpass [] 4 "pw" = Except.error "no askpass found"
    ∧ repository_for_request exStore 9 9
        = Except.error "missing repository handle" :=
  claim_C8_unknown_id_and_repo_error [] 4 "pw" (by decide) exStore 9 9 (by decide)

end GitCoordinator
